import Mathlib

/-!
# Verification of the PubMEdRAG ingestion-and-retrieval pipeline

Shallow embedding of the core of the repository:

* `pubmed_ingestor.py` — sentence chunker (`_chunk_text`) and the
  parse/chunk/dual-write pipeline (`fetch_and_ingest`);
* `mongodb_handler.py` — idempotent article insertion (`insert_article`)
  and the co-authorship graph builder (`get_author_network_data`);
* `chromadb_handler.py` — vector-store batch upsert (`add_chunks`);
* `main.py` — the defensive parsing of the generation-service response in
  `ask_question`.

Text is modelled as `List Char` (Python `str`).  Stateful database
collections are modelled as explicit lists threaded through the
operations.  External black boxes (the embedding model, the date parser)
are parameters of the functions that call them.
-/

/-- The Python whitespace class `\s` restricted to ASCII: space, tab,
newline, carriage return, vertical tab, form feed. -/
def pyIsSpace (c : Char) : Bool :=
  c = ' ' || c = '\t' || c = '\n' || c = '\r' || c = Char.ofNat 11 || c = Char.ofNat 12

/-- The sentence-ending punctuation class `[.!?]` of the boundary rule in
`_chunk_text`. -/
def isSentenceEnd (c : Char) : Bool :=
  c = '.' || c = '!' || c = '?'

/-- Python `str.strip()`: remove whitespace from both ends. -/
def pyStrip (s : List Char) : List Char :=
  ((s.dropWhile pyIsSpace).reverse.dropWhile pyIsSpace).reverse

/-- Whether a piece of text starts with a whitespace character. -/
def headIsSpace : List Char → Bool
  | [] => false
  | d :: _ => pyIsSpace d

/-- Worker for the `re.split` call on the pattern of dot, exclamation or
question mark followed by whitespace (pubmed_ingestor.py line 60): scanning left to right, a separator is a maximal run of
whitespace whose preceding character is one of `.`, `!`, `?`.  `cur` is
the piece accumulated so far, in reverse; `sep` records that the scanner
is still inside the whitespace run of a separator just matched, whose
remaining characters are consumed without starting a new piece. -/
def splitSentencesAux (sep : Bool) (cur : List Char) : List Char → List (List Char)
  | [] => [cur.reverse]
  | c :: rest =>
    if sep && pyIsSpace c then
      splitSentencesAux true cur rest
    else if isSentenceEnd c && headIsSpace rest then
      (c :: cur).reverse :: splitSentencesAux true [] rest
    else
      splitSentencesAux false (c :: cur) rest

/-- The `re.split` sentence-boundary rule of `_chunk_text`: split at
each maximal whitespace run preceded by dot, exclamation or question
mark. -/
def splitSentences (text : List Char) : List (List Char) :=
  splitSentencesAux false [] text

/-- Python `" ".join(pieces)`. -/
def joinSpace : List (List Char) → List Char
  | [] => []
  | [s] => s
  | s :: t :: rest => s ++ ' ' :: joinSpace (t :: rest)

/-- The sentence-grouping loop of `_chunk_text` (pubmed_ingestor.py lines
61-68).  `n` is `len(sentences)`, `i` the loop index, `current` the
`current_chunk` accumulator; a chunk is flushed when
`(i + 1) % chunk_size_sentences == 0 or i == len(sentences) - 1`, guarded
by `if current_chunk` (list non-emptiness). -/
def chunkAux (W n : Nat) (i : Nat) (current : List (List Char)) :
    List (List Char) → List (List Char)
  | [] => []
  | s :: rest =>
    let cur := current ++ [pyStrip s]
    if (i + 1) % W = 0 ∨ i = n - 1 then
      (if cur ≠ [] then [joinSpace cur] else []) ++ chunkAux W n (i + 1) [] rest
    else
      chunkAux W n (i + 1) cur rest

/-- `PubMedIngestor._chunk_text(text, chunk_size_sentences)`: empty text
returns `[]`; otherwise split into sentences and group into windows of
`W` sentences, stripping each sentence and joining each window with a
single space. -/
def chunkTextL (text : List Char) (W : Nat) : List (List Char) :=
  if text = [] then []
  else chunkAux W (splitSentences text).length 0 [] (splitSentences text)

/-- Capacity-counting normal form of the grouping loop, producing the
sentence windows themselves (before joining): `c` is the number of
sentences still accepted by the current window (`c = W - i % W`).  Used
only through `chunkAux_eq_groupCap`. -/
def groupCap (W : Nat) (c : Nat) (current : List (List Char)) :
    List (List Char) → List (List (List Char))
  | [] => []
  | s :: rest =>
    let cur := current ++ [pyStrip s]
    if c ≤ 1 ∨ rest = [] then
      cur :: groupCap W W [] rest
    else
      groupCap W (c - 1) cur rest

/-- The sentence windows that `_chunk_text` joins: empty text gives no
windows, otherwise the stripped sentences grouped into windows of `W`. -/
def chunkGroups (text : List Char) (W : Nat) : List (List (List Char)) :=
  if text = [] then [] else groupCap W W [] (splitSentences text)

/-- An article document of the `articles` MongoDB collection, as built by
`fetch_and_ingest` (pubmed_ingestor.py lines 135-142): the PubMed ID is
used as the `_id` key. -/
structure Article where
  _id : String
  title : String
  abstract : String
  authors : List String
  publication_date : Option String
  source : String
deriving DecidableEq

/-- `MongoDBHandler.insert_article` (mongodb_handler.py lines 60-95) on a
connected collection, modelled as the list of stored documents in
insertion order: `find_one` on the `_id` key is an existence check; if the
article already exists the stored data is left untouched and the existing
identifier is returned; otherwise the document is appended and
`str(result.inserted_id)` (the `_id`) is returned. -/
def insert_article (coll : List Article) (article_data : Article) :
    Option String × List Article :=
  match coll.find? (fun x => x._id == article_data._id) with
  | some _ => (some article_data._id, coll)
  | none => (some article_data._id, coll ++ [article_data])

/-- A node of the author network ("id", "name", "type" in
mongodb_handler.py lines 178-182). -/
structure AuthorNode where
  id : String
  name : String
  type : String
deriving DecidableEq

/-- A link of the author network: the two endpoint author names and the
accumulated (pmid, title) entries (mongodb_handler.py lines 191-201). -/
structure LinkData where
  source : String
  target : String
  articles : List (String × String)
deriving DecidableEq

/-- The nodes-and-links payload returned by
`get_author_network_data`. -/
structure NetworkData where
  nodes : List AuthorNode
  links : List LinkData
deriving DecidableEq

/-- The Python `<=` on strings: lexicographic comparison by code point. -/
def charListLe : List Char → List Char → Bool
  | [], _ => true
  | _ :: _, [] => false
  | a :: as, b :: bs =>
    if a.toNat < b.toNat then true
    else if b.toNat < a.toNat then false
    else charListLe as bs

/-- The Python `<=` on strings, lifted to the `String` wrapper. -/
def pyStrLe (a b : String) : Bool :=
  charListLe a.data b.data

/-- Insert into a sorted list; worker for `pySorted`. -/
def insertSorted (a : String) : List String → List String
  | [] => [a]
  | b :: rest => if pyStrLe a b then a :: b :: rest else b :: insertSorted a rest

/-- Python `sorted()` on strings (ascending lexicographic order by code
point).  Insertion sort; stability is irrelevant here because ties are
between identical strings. -/
def pySorted (l : List String) : List String :=
  l.foldr insertSorted []

/-- `itertools.combinations(l, 2)`: all pairs `(l[i], l[j])` with
`i < j`, in the order Python yields them. -/
def pairs {α : Type} : List α → List (α × α)
  | [] => []
  | a :: rest => rest.map (fun b => (a, b)) ++ pairs rest

/-- One `links[link_key]` update of `get_author_network_data`
(mongodb_handler.py lines 188-201): the link dictionary is an
insertion-ordered association list keyed by the string `author1--author2`; an
existing entry gets the article appended, a missing key is inserted at
the end. -/
def addPair (links : List (String × LinkData)) (author1 author2 : String)
    (pmid title : String) : List (String × LinkData) :=
  let link_key := author1 ++ "--" ++ author2
  if (links.find? (fun kv => kv.1 == link_key)).isSome then
    links.map (fun kv =>
      if kv.1 == link_key then
        (kv.1, { kv.2 with articles := kv.2.articles ++ [(pmid, title)] })
      else kv)
  else
    links ++ [(link_key, ⟨author1, author2, [(pmid, title)]⟩)]

/-- The node-collection step of the per-article loop (mongodb_handler.py
lines 176-182): each author is added once, keyed by name, first
occurrence wins. -/
def addNodes (nodes : List (String × AuthorNode)) (authors : List String) :
    List (String × AuthorNode) :=
  authors.foldl
    (fun ns author_name =>
      if (ns.find? (fun kv => kv.1 == author_name)).isSome then ns
      else ns ++ [(author_name, ⟨author_name, author_name, "author"⟩)])
    nodes

/-- The link-creation step of the per-article loop (mongodb_handler.py
lines 184-201): only articles with more than one author contribute, and
the unordered pairs are taken from the lexicographically sorted author
list. -/
def articleLinks (links : List (String × LinkData)) (a : Article) :
    List (String × LinkData) :=
  if 1 < a.authors.length then
    (pairs (pySorted a.authors)).foldl
      (fun ls p => addPair ls p.1 p.2 a._id a.title) links
  else links

/-- Python truthiness of the optional `article_pmids` argument: `None`
and the empty list are both falsy. -/
def optTruthy : Option (List String) → Bool
  | none => false
  | some l => !l.isEmpty

/-- `MongoDBHandler.get_author_network_data(article_pmids)`
(mongodb_handler.py lines 137-208) over a connected collection `coll`:
an `$in` filter is applied only when `article_pmids` is truthy, then the
per-article loop accumulates the node and link dictionaries, which are
finally flattened to their value lists. -/
def get_author_network_data (coll : List Article)
    (article_pmids : Option (List String)) : NetworkData :=
  let filtered :=
    if optTruthy article_pmids then
      coll.filter (fun a => (article_pmids.getD []).contains a._id)
    else coll
  let acc := filtered.foldl
    (fun (acc : List (String × AuthorNode) × List (String × LinkData)) a =>
      (addNodes acc.1 a.authors, articleLinks acc.2 a))
    ([], [])
  ⟨acc.1.map Prod.snd, acc.2.map Prod.snd⟩

/-- Metadata attached to one chunk (pubmed_ingestor.py lines 149-154). -/
structure ChunkMeta where
  article_id : String
  chunk_index : Nat
  source : String
  title : String
deriving DecidableEq

/-- The `for j, chunk in enumerate(chunks)` loop of `fetch_and_ingest`
(pubmed_ingestor.py lines 147-155), for one article: produces the chunk
texts, their metadata and their identifiers of the form `pmid_chunk_j`,
starting at index `j`. -/
def recordChunksAux (pmid title : String) (j : Nat) :
    List (List Char) → List (List Char) × List ChunkMeta × List String
  | [] => ([], [], [])
  | c :: rest =>
    let acc := recordChunksAux pmid title (j + 1) rest
    (c :: acc.1,
     ⟨pmid, j, "abstract", title⟩ :: acc.2.1,
     (pmid ++ "_chunk_" ++ toString j) :: acc.2.2)

/-- The chunk texts, metadata and identifiers contributed by one article
during ingestion. -/
def recordChunks (pmid title : String) (abstract : String) :
    List (List Char) × List ChunkMeta × List String :=
  recordChunksAux pmid title 0 (chunkTextL abstract.data 3)

/-- One entry of the ChromaDB collection: identifier, document text,
metadata and embedding vector (embeddings are opaque values of type `E`
produced by the black-box model). -/
structure ChromaEntry (E : Type) where
  id : String
  document : List Char
  metadata : ChunkMeta
  embedding : E
deriving DecidableEq

/-- `ChromaDBHandler.add_chunks(texts, metadatas, ids)` (chromadb_handler.py
lines 79-119) on a connected handler: `embed` is the black-box
`self.model.encode`; a length mismatch is rejected before any embedding
or write (`return False`), an empty embedding result short-circuits, and
otherwise the aligned entries are appended to the collection. -/
def add_chunks {E : Type} (embed : List (List Char) → List E)
    (collection : List (ChromaEntry E))
    (texts : List (List Char)) (metadatas : List ChunkMeta)
    (ids : List String) : Bool × List (ChromaEntry E) :=
  if ¬(texts.length = metadatas.length ∧ metadatas.length = ids.length) then
    (false, collection)
  else
    let embeddings := embed texts
    if embeddings.isEmpty then (false, collection)
    else
      (true,
       collection ++
         (ids.zip (texts.zip (metadatas.zip embeddings))).map
           (fun e => ⟨e.1, e.2.1, e.2.2.1, e.2.2.2⟩))

/-- One raw MEDLINE record as read by `fetch_and_ingest`
(pubmed_ingestor.py lines 109-114): the fields accessed via
`record.get`. -/
structure RawRecord where
  PMID : Option String
  TI : Option String
  AB : Option String
  AU : List String
  DP : Option String
deriving DecidableEq

/-- The per-record parsing step of `fetch_and_ingest` (pubmed_ingestor.py
lines 109-143): defaults for missing title/abstract/authors, the date
parser (`parseDate`, an external parameter — no claim depends on it), and
the `if not pmid: continue` skip for a missing or empty PMID. -/
def parseRecord (parseDate : Option String → Option String)
    (r : RawRecord) : Option Article :=
  let title := r.TI.getD "No Title Available"
  let abstract := r.AB.getD "No Abstract Available"
  let authors := r.AU
  let publication_date := parseDate r.DP
  match r.PMID with
  | none => none
  | some pmid =>
    if pmid = "" then none
    else some ⟨pmid, title, abstract, authors, publication_date, "PubMed"⟩

/-- `PubMedIngestor.fetch_and_ingest` after the search and fetch steps
(pubmed_ingestor.py lines 86-181), over a connected MongoDB collection
`mongo` and ChromaDB collection `chroma`: an empty identifier list
returns early; otherwise every record is parsed (skipping records
without a PMID), its abstract is chunked, the parsed articles are
inserted one by one into MongoDB, and all chunks of the whole batch are
added to ChromaDB in one call.  The Python function falls off the end
(or hits a bare `return`), so its value is always `none`: no count of
processed, ingested or skipped records is returned to the caller. -/
def fetch_and_ingest {E : Type} (embed : List (List Char) → List E)
    (parseDate : Option String → Option String)
    (id_list : List String) (records : List RawRecord)
    (mongo : List Article) (chroma : List (ChromaEntry E)) :
    (List Article × List (ChromaEntry E)) × Option (Nat × Nat × Nat) :=
  if id_list = [] then ((mongo, chroma), none)
  else
    let step := fun (acc : List Article × List (List Char) × List ChunkMeta × List String)
        (r : RawRecord) =>
      match parseRecord parseDate r with
      | none => acc
      | some a =>
        let rc := recordChunks a._id a.title a.abstract
        (acc.1 ++ [a], acc.2.1 ++ rc.1, acc.2.2.1 ++ rc.2.1, acc.2.2.2 ++ rc.2.2)
    let parsed := records.foldl step ([], [], [], [])
    let mongo2 := parsed.1.foldl (fun m a => (insert_article m a).2) mongo
    let chroma2 :=
      if parsed.2.1 ≠ [] then
        (add_chunks embed chroma parsed.2.1 parsed.2.2.1 parsed.2.2.2).2
      else chroma
    ((mongo2, chroma2), none)

/-- One element of `candidates[0]["content"]["parts"]` in the generation
response of the service (main.py lines 221-225); the `text` field may be
absent. -/
structure GenPart where
  text : Option String
deriving DecidableEq

/-- The `content` object of a candidate; `parts` models
`content.get("parts")`, with `[]` covering both an absent and an empty
(falsy) list. -/
structure GenContent where
  parts : List GenPart
deriving DecidableEq

/-- One element of the `candidates` list; `content` may be absent (or
falsy). -/
structure GenCandidate where
  content : Option GenContent
deriving DecidableEq

/-- The JSON response body of the generation service; `candidates` models
`llm_result.get("candidates")`, with `[]` covering both an absent and an
empty (falsy) list.  A falsy `llm_result` itself is modelled by `none`
at the call site. -/
structure LLMResult where
  candidates : List GenCandidate
deriving DecidableEq

/-- The fixed fallback answer of `ask_question` (main.py line 221). -/
def fallbackAnswer : String := "Could not generate an answer."

/-- The defensive response parsing of `ask_question` (main.py lines
221-227): `generated_answer` starts as the fallback and is replaced only
when `candidates`, `content`, `parts` and `text` are all present and
truthy along the nested path
`llm_result["candidates"][0]["content"]["parts"][0].get("text", ...)`. -/
def extractGeneratedAnswer (llm_result : Option LLMResult) : String :=
  match llm_result with
  | none => fallbackAnswer
  | some res =>
    match res.candidates with
    | [] => fallbackAnswer
    | first_candidate :: _ =>
      match first_candidate.content with
      | none => fallbackAnswer
      | some content =>
        match content.parts with
        | [] => fallbackAnswer
        | part :: _ =>
          match part.text with
          | none => fallbackAnswer
          | some t => t

/-! ## C1: idempotent article insertion -/

/-- Claim C1. Inserting two articles with the same identifier into a
collection that does not yet hold that identifier stores exactly one
article — the content of the first write, never overwritten — and the second
call returns the existing identifier without error and without writing. -/
theorem C1_insert_article_idempotent (coll : List Article) (a b : Article)
    (hid : b._id = a._id)
    (habs : ∀ x ∈ coll, x._id ≠ a._id) :
    insert_article coll a = (some a._id, coll ++ [a]) ∧
    insert_article (coll ++ [a]) b = (some a._id, coll ++ [a]) ∧
    (coll ++ [a]).filter (fun x => x._id == a._id) = [a] := by
  have hfind : coll.find? (fun x => x._id == a._id) = none := by
    rw [List.find?_eq_none]
    intro x hx
    simp [habs x hx]
  have hfilter : coll.filter (fun x => x._id == a._id) = [] := by
    rw [List.filter_eq_nil_iff]
    intro x hx
    simp [habs x hx]
  refine ⟨?_, ?_, ?_⟩
  · rw [insert_article, hfind]
  · rw [insert_article, hid, List.find?_append, hfind]
    simp [List.find?]
  · rw [List.filter_append, hfilter]
    simp

def articleX1 : Article := ⟨"P1", "Title one", "Abs one", ["X"], none, "PubMed"⟩

def articleX2 : Article := ⟨"P1", "Title two", "Abs two", ["Y"], none, "PubMed"⟩

/-- Witness for C1 at a concrete input: the second insert carries
different content but the stored article keeps the data of the first
write. -/
theorem C1_insert_article_idempotent_witness :
    articleX2._id = articleX1._id ∧ (∀ x ∈ ([] : List Article), x._id ≠ articleX1._id) ∧
    (insert_article [] articleX1 = (some articleX1._id, [] ++ [articleX1]) ∧
     insert_article ([] ++ [articleX1]) articleX2 =
       (some articleX1._id, [] ++ [articleX1]) ∧
     ([] ++ [articleX1]).filter (fun x => x._id == articleX1._id) = [articleX1]) :=
  ⟨rfl, by simp, C1_insert_article_idempotent [] articleX1 articleX2 rfl (by simp)⟩

/-! ## C10: an empty identifier filter behaves like no filter -/

/-- Claim C10. Passing an empty PMID list to the graph builder is the same
as passing no filter: the Python guard `if article_pmids:` is falsy for
both `None` and `[]`, so the graph is built over every stored article. -/
theorem C10_empty_filter_is_no_filter (coll : List Article) :
    get_author_network_data coll (some []) = get_author_network_data coll none := rfl

/-! ## C8: vector-store upsert rejects mismatched batch lengths -/

/-- Claim C8. If the texts, metadatas and ids lists do not all have the
same length, `add_chunks` fails and leaves the collection unchanged;
the result does not depend on the embedding function, so no embedding is
generated and nothing is written. -/
theorem C8_add_chunks_rejects_mismatch {E : Type}
    (embed : List (List Char) → List E) (collection : List (ChromaEntry E))
    (texts : List (List Char)) (metadatas : List ChunkMeta) (ids : List String)
    (h : ¬(texts.length = metadatas.length ∧ metadatas.length = ids.length)) :
    add_chunks embed collection texts metadatas ids = (false, collection) := by
  rw [add_chunks, if_pos h]

/-- Witness for C8: one text but no metadata and no ids. -/
theorem C8_add_chunks_rejects_mismatch_witness :
    ¬((([['a']] : List (List Char))).length = ([] : List ChunkMeta).length ∧
      ([] : List ChunkMeta).length = ([] : List String).length) ∧
    add_chunks (fun ts => ts.map (fun _ => ([0] : List Int))) [] [['a']] [] [] =
      (false, []) :=
  ⟨by decide,
   C8_add_chunks_rejects_mismatch (fun ts => ts.map (fun _ => ([0] : List Int)))
     [] [['a']] [] [] (by decide)⟩

/-! ## C7: malformed generation responses fall back to a fixed answer -/

/-- Claim C7. Whenever the expected nested answer field is absent at any
level — the response itself, `candidates`, `content`, `parts`, or
`text` — the parsing step of the orchestrator returns the fixed fallback
string; since `extractGeneratedAnswer` is a total function, the parsing
step never raises. -/
theorem C7_malformed_response_fallback :
    extractGeneratedAnswer none = fallbackAnswer ∧
    (∀ r : LLMResult, r.candidates = [] →
      extractGeneratedAnswer (some r) = fallbackAnswer) ∧
    (∀ (r : LLMResult) (c : GenCandidate) (cs : List GenCandidate),
      r.candidates = c :: cs → c.content = none →
      extractGeneratedAnswer (some r) = fallbackAnswer) ∧
    (∀ (r : LLMResult) (c : GenCandidate) (cs : List GenCandidate) (ct : GenContent),
      r.candidates = c :: cs → c.content = some ct → ct.parts = [] →
      extractGeneratedAnswer (some r) = fallbackAnswer) ∧
    (∀ (r : LLMResult) (c : GenCandidate) (cs : List GenCandidate) (ct : GenContent)
        (p : GenPart) (ps : List GenPart),
      r.candidates = c :: cs → c.content = some ct → ct.parts = p :: ps →
      p.text = none → extractGeneratedAnswer (some r) = fallbackAnswer) := by
  refine ⟨rfl, ?_, ?_, ?_, ?_⟩
  · intro r h
    simp [extractGeneratedAnswer, h]
  · intro r c cs h1 h2
    simp [extractGeneratedAnswer, h1, h2]
  · intro r c cs ct h1 h2 h3
    simp [extractGeneratedAnswer, h1, h2, h3]
  · intro r c cs ct p ps h1 h2 h3 h4
    simp [extractGeneratedAnswer, h1, h2, h3, h4]

/-- Witness for C7 at concrete malformed responses, one per missing
nesting level. -/
theorem C7_malformed_response_fallback_witness :
    extractGeneratedAnswer (some ⟨[]⟩) = fallbackAnswer ∧
    extractGeneratedAnswer (some ⟨[⟨none⟩]⟩) = fallbackAnswer ∧
    extractGeneratedAnswer (some ⟨[⟨some ⟨[]⟩⟩]⟩) = fallbackAnswer ∧
    extractGeneratedAnswer (some ⟨[⟨some ⟨[⟨none⟩]⟩⟩]⟩) = fallbackAnswer :=
  ⟨C7_malformed_response_fallback.2.1 ⟨[]⟩ rfl,
   C7_malformed_response_fallback.2.2.1 ⟨[⟨none⟩]⟩ ⟨none⟩ [] rfl rfl,
   C7_malformed_response_fallback.2.2.2.1 ⟨[⟨some ⟨[]⟩⟩]⟩ ⟨some ⟨[]⟩⟩ [] ⟨[]⟩ rfl rfl rfl,
   C7_malformed_response_fallback.2.2.2.2 ⟨[⟨some ⟨[⟨none⟩]⟩⟩]⟩ ⟨some ⟨[⟨none⟩]⟩⟩ []
     ⟨[⟨none⟩]⟩ ⟨none⟩ [] rfl rfl rfl rfl⟩

/-! ## C6: chunk identifiers -/

/-- Closed form of the per-article chunk loop: starting at index `j`,
the texts are the chunks themselves and the metadata and identifiers
follow the indices `j, j+1, ...`. -/
theorem recordChunksAux_eq (pmid title : String) :
    ∀ (chunks : List (List Char)) (j : Nat),
      recordChunksAux pmid title j chunks =
        (chunks,
         (List.range' j chunks.length).map
           (fun k => (⟨pmid, k, "abstract", title⟩ : ChunkMeta)),
         (List.range' j chunks.length).map
           (fun k => pmid ++ "_chunk_" ++ toString k)) := by
  intro chunks
  induction chunks with
  | nil => intro j; rfl
  | cons c rest ih =>
    intro j
    simp [recordChunksAux, ih (j + 1), List.range']

/-- Claim C6. For an article whose abstract produces `n` chunks, the chunk
identifiers generated by the ingestion loop are exactly
`pmid_chunk_0 .. pmid_chunk_(n-1)`, in that order; each metadata entry
carries the owning article identifier and its zero-based index, aligned
with the chunk texts; and the function is pure, so re-ingesting the same
article reproduces identical identifiers. -/
theorem C6_chunk_identifiers (pmid title abstract : String) :
    (recordChunks pmid title abstract).2.2 =
      (List.range (chunkTextL abstract.data 3).length).map
        (fun j => pmid ++ "_chunk_" ++ toString j) ∧
    (recordChunks pmid title abstract).2.1 =
      (List.range (chunkTextL abstract.data 3).length).map
        (fun j => (⟨pmid, j, "abstract", title⟩ : ChunkMeta)) ∧
    (recordChunks pmid title abstract).1 = chunkTextL abstract.data 3 ∧
    recordChunks pmid title abstract = recordChunks pmid title abstract := by
  rw [recordChunks, recordChunksAux_eq, List.range_eq_range']
  exact ⟨rfl, rfl, rfl, rfl⟩

/-! ## C5: sorted canonical co-author pairs -/

def articleC5 (authors : List String) : Article :=
  ⟨"P", "T", "Abs", authors, none, "PubMed"⟩

/-- Claim C5. For an article with authors `C`, `A`, `B` stored in any
order, the graph builder produces exactly the links for the sorted
canonical pairs `(A,B)`, `(A,C)`, `(B,C)`, each listing that one
identifier and title of that article; because the pair key is formed from the
sorted author list, the link set does not depend on the stored order. -/
theorem C5_sorted_pair_links (authors : List String)
    (h : authors ∈ [(["C", "A", "B"] : List String), ["C", "B", "A"], ["A", "C", "B"],
                    ["A", "B", "C"], ["B", "C", "A"], ["B", "A", "C"]]) :
    (get_author_network_data [articleC5 authors] none).links =
      [⟨"A", "B", [("P", "T")]⟩, ⟨"A", "C", [("P", "T")]⟩,
       ⟨"B", "C", [("P", "T")]⟩] := by
  revert authors h
  decide

/-- Witness for C5 at the stored order `[C, A, B]` of the claim. -/
theorem C5_sorted_pair_links_witness :
    (["C", "A", "B"] ∈ [(["C", "A", "B"] : List String), ["C", "B", "A"], ["A", "C", "B"],
                        ["A", "B", "C"], ["B", "C", "A"], ["B", "A", "C"]]) ∧
    (get_author_network_data [articleC5 ["C", "A", "B"]] none).links =
      [⟨"A", "B", [("P", "T")]⟩, ⟨"A", "C", [("P", "T")]⟩,
       ⟨"B", "C", [("P", "T")]⟩] :=
  ⟨by decide, C5_sorted_pair_links ["C", "A", "B"] (by decide)⟩

/-! ## C9: what a completed ingestion run returns -/

/-- Claim C9, amended. A completed ingestion run returns `None` to its
caller — `fetch_and_ingest` has no return value on any path — so no
count of processed, ingested or skipped records is returned; such counts
appear only in log output. -/
theorem C9_amended_no_counts_returned {E : Type}
    (embed : List (List Char) → List E) (parseDate : Option String → Option String)
    (id_list : List String) (records : List RawRecord)
    (mongo : List Article) (chroma : List (ChromaEntry E)) :
    (fetch_and_ingest embed parseDate id_list records mongo chroma).2 = none := by
  rw [fetch_and_ingest]
  split <;> rfl

def exEmbed : List (List Char) → List (List Int) :=
  fun ts => ts.map (fun _ => [0])

def exParseDate : Option String → Option String :=
  fun _ => none

def exRecordWithPmid : RawRecord :=
  ⟨some "P1", some "T1", some "One. Two.", ["X", "Y"], none⟩

def exRecordNoPmid : RawRecord :=
  ⟨none, some "T2", some "Three.", ["Z"], none⟩

/-- Claim C9, counterexample. A concrete completed run — one ingested
record, one skipped record — returns `none`, not a triple of
processed/ingested/skipped counts, refuting the claim that the pipeline
returns such counts to its caller. -/
theorem C9_counterexample_returns_none :
    (fetch_and_ingest exEmbed exParseDate ["P1", "P2"]
        [exRecordWithPmid, exRecordNoPmid] [] []).2 = none ∧
    ∀ counts : Nat × Nat × Nat,
      (fetch_and_ingest exEmbed exParseDate ["P1", "P2"]
          [exRecordWithPmid, exRecordNoPmid] [] []).2 ≠ some counts := by
  refine ⟨rfl, ?_⟩
  intro counts h
  have hn : (fetch_and_ingest exEmbed exParseDate ["P1", "P2"]
      [exRecordWithPmid, exRecordNoPmid] [] []).2 = none := rfl
  rw [hn] at h
  cases h

/-! ## C4: no self-links, and small author lists contribute nothing -/

def articleDupAuthor : Article :=
  ⟨"P1", "T1", "Abs", ["A", "A"], none, "PubMed"⟩

/-- Claim C4, counterexample. An article whose stored author list repeats
the same name produces a link whose two endpoints are the same name:
`combinations(sorted(["A", "A"]), 2)` yields the pair `("A", "A")`. -/
theorem C4_counterexample_self_link :
    (get_author_network_data [articleDupAuthor] none).links =
      [⟨"A", "A", [("P1", "T1")]⟩] ∧
    ∃ l ∈ (get_author_network_data [articleDupAuthor] none).links,
      l.source = l.target := by
  refine ⟨by decide, ⟨⟨"A", "A", [("P1", "T1")]⟩, by decide, rfl⟩⟩

theorem insertSorted_perm (a : String) :
    ∀ l : List String, (insertSorted a l).Perm (a :: l) := by
  intro l
  induction l with
  | nil => exact List.Perm.refl _
  | cons b rest ih =>
    rw [insertSorted]
    by_cases h : pyStrLe a b = true
    · rw [if_pos h]
    · rw [if_neg h]
      exact (List.Perm.cons b ih).trans (List.Perm.swap a b rest)

theorem pySorted_perm : ∀ l : List String, (pySorted l).Perm l := by
  intro l
  induction l with
  | nil => exact List.Perm.refl _
  | cons a rest ih =>
    exact (insertSorted_perm a (pySorted rest)).trans (List.Perm.cons a ih)

theorem pairs_ne_of_nodup {α : Type} :
    ∀ l : List α, l.Nodup → ∀ p ∈ pairs l, p.1 ≠ p.2 := by
  intro l
  induction l with
  | nil => intro _ p hp; cases hp
  | cons a rest ih =>
    intro hnd p hp
    rw [pairs, List.mem_append] at hp
    rcases hp with hp | hp
    · rcases List.mem_map.mp hp with ⟨b, hb, rfl⟩
      intro h
      simp only at h
      exact (List.nodup_cons.mp hnd).1 (h ▸ hb)
    · exact ih (List.nodup_cons.mp hnd).2 p hp

theorem addPair_sources (links : List (String × LinkData))
    (author1 author2 pmid title : String) (hne : author1 ≠ author2)
    (h : ∀ kv ∈ links, kv.2.source ≠ kv.2.target) :
    ∀ kv ∈ addPair links author1 author2 pmid title,
      kv.2.source ≠ kv.2.target := by
  intro kv hkv
  rw [addPair] at hkv
  by_cases hf :
      (links.find? (fun kv => kv.1 == author1 ++ "--" ++ author2)).isSome = true
  · rw [if_pos hf] at hkv
    rcases List.mem_map.mp hkv with ⟨kv0, hkv0, hEq⟩
    have h0 := h kv0 hkv0
    by_cases hk : (kv0.1 == author1 ++ "--" ++ author2) = true
    · rw [if_pos hk] at hEq
      rw [← hEq]
      exact h0
    · rw [if_neg hk] at hEq
      rw [← hEq]
      exact h0
  · rw [if_neg hf, List.mem_append] at hkv
    rcases hkv with hkv | hkv
    · exact h kv hkv
    · rcases List.mem_singleton.mp hkv with rfl
      exact hne

theorem foldl_addPair_sources (pmid title : String) :
    ∀ (ps : List (String × String)) (links : List (String × LinkData)),
      (∀ p ∈ ps, p.1 ≠ p.2) →
      (∀ kv ∈ links, kv.2.source ≠ kv.2.target) →
      ∀ kv ∈ ps.foldl (fun ls p => addPair ls p.1 p.2 pmid title) links,
        kv.2.source ≠ kv.2.target := by
  intro ps
  induction ps with
  | nil => intro links _ h; exact h
  | cons p ps ih =>
    intro links hps h
    exact ih _ (fun q hq => hps q (List.mem_cons_of_mem p hq))
      (addPair_sources _ _ _ _ _ (hps p (List.mem_cons_self p ps)) h)

theorem articleLinks_sources (links : List (String × LinkData)) (a : Article)
    (hnd : a.authors.Nodup)
    (h : ∀ kv ∈ links, kv.2.source ≠ kv.2.target) :
    ∀ kv ∈ articleLinks links a, kv.2.source ≠ kv.2.target := by
  rw [articleLinks]
  by_cases hlen : 1 < a.authors.length
  · rw [if_pos hlen]
    exact foldl_addPair_sources _ _ _ _
      (pairs_ne_of_nodup _ ((pySorted_perm a.authors).nodup_iff.mpr hnd)) h
  · rw [if_neg hlen]
    exact h

theorem fold_network_sources :
    ∀ (arts : List Article)
      (acc : List (String × AuthorNode) × List (String × LinkData)),
      (∀ a ∈ arts, a.authors.Nodup) →
      (∀ kv ∈ acc.2, kv.2.source ≠ kv.2.target) →
      ∀ kv ∈ (arts.foldl
          (fun acc a => (addNodes acc.1 a.authors, articleLinks acc.2 a)) acc).2,
        kv.2.source ≠ kv.2.target := by
  intro arts
  induction arts with
  | nil => intro acc _ h; exact h
  | cons a arts ih =>
    intro acc hnd h
    exact ih _ (fun b hb => hnd b (List.mem_cons_of_mem a hb))
      (articleLinks_sources _ _ (hnd a (List.mem_cons_self a arts)) h)

/-- Claim C4, amended. Provided no stored article repeats an author name
within its own author list, no link of the built graph connects an
author to itself, for every stored set of articles and every filter; and
unconditionally an article with fewer than two authors contributes no
links. -/
theorem C4_amended_no_self_links (coll : List Article)
    (article_pmids : Option (List String))
    (hnd : ∀ a ∈ coll, a.authors.Nodup) :
    (∀ l ∈ (get_author_network_data coll article_pmids).links,
      l.source ≠ l.target) ∧
    (∀ (links : List (String × LinkData)) (a : Article),
      a.authors.length < 2 → articleLinks links a = links) := by
  constructor
  · intro l hl
    rw [get_author_network_data] at hl
    rcases List.mem_map.mp hl with ⟨kv, hkv, rfl⟩
    refine fold_network_sources _ _ ?_ (by intro kv h; cases h) kv hkv
    intro a ha
    by_cases ht : optTruthy article_pmids = true
    · rw [if_pos ht] at ha
      exact hnd a (List.mem_filter.mp ha).1
    · rw [if_neg ht] at ha
      exact hnd a ha
  · intro links a hlen
    rw [articleLinks, if_neg (by omega)]

def articleABC : Article :=
  ⟨"P1", "Novel Approach to Quantum Computing", "Abs",
   ["Alice Smith", "Bob Johnson", "Charlie Brown"], none, "PubMed"⟩

def articleSolo : Article :=
  ⟨"P2", "AI in Medical Diagnostics", "Abs", ["Alice Smith"], none, "PubMed"⟩

/-- Witness for C4 on a concrete store with duplicate-free author
lists. -/
theorem C4_amended_no_self_links_witness :
    (∀ a ∈ [articleABC, articleSolo], a.authors.Nodup) ∧
    ((∀ l ∈ (get_author_network_data [articleABC, articleSolo] none).links,
        l.source ≠ l.target) ∧
     (∀ (links : List (String × LinkData)) (a : Article),
        a.authors.length < 2 → articleLinks links a = links)) :=
  ⟨by decide, C4_amended_no_self_links [articleABC, articleSolo] none (by decide)⟩

/-! ## Chunker analysis: the grouping loop as window grouping -/

theorem succ_mod_eq_zero_iff (W i : Nat) (hW : 1 ≤ W) :
    (i + 1) % W = 0 ↔ i % W = W - 1 := by
  have h3 : i % W < W := Nat.mod_lt _ hW
  constructor
  · intro h
    have h2 : (i % W + 1) % W = 0 := by rwa [Nat.mod_add_mod]
    by_cases h4 : i % W + 1 < W
    · rw [Nat.mod_eq_of_lt h4] at h2
      omega
    · omega
  · intro h
    have h5 : i % W + 1 = W := by omega
    rw [← Nat.mod_add_mod, h5, Nat.mod_self]

theorem succ_mod_of_ne_zero (W i : Nat) (hW : 1 ≤ W) (h : ¬(i + 1) % W = 0) :
    (i + 1) % W = i % W + 1 := by
  have h3 : i % W < W := Nat.mod_lt _ hW
  have h4 : i % W + 1 < W := by
    have hne : i % W ≠ W - 1 := fun hh => h ((succ_mod_eq_zero_iff W i hW).mpr hh)
    omega
  rw [← Nat.mod_add_mod, Nat.mod_eq_of_lt h4]

theorem groupCap_ne_nil (W : Nat) :
    ∀ (rest : List (List Char)) (c : Nat) (current : List (List Char)),
      rest ≠ [] → groupCap W c current rest ≠ [] := by
  intro rest
  induction rest with
  | nil => intro c current h; exact absurd rfl h
  | cons s rest ih =>
    intro c current _
    rw [groupCap]
    by_cases h : c ≤ 1 ∨ rest = []
    · rw [if_pos h]
      exact List.cons_ne_nil _ _
    · rw [if_neg h]
      push_neg at h
      exact ih (c - 1) (current ++ [pyStrip s]) h.2

/-- The grouping loop of `_chunk_text` computes exactly the joined
windows of `groupCap`, with window capacity `W - i % W`. -/
theorem chunkAux_eq_groupCap (W : Nat) (hW : 1 ≤ W) :
    ∀ (rest : List (List Char)) (n i : Nat) (current : List (List Char)),
      n = i + rest.length →
      chunkAux W n i current rest =
        (groupCap W (W - i % W) current rest).map joinSpace := by
  intro rest
  induction rest with
  | nil => intro n i current _; rfl
  | cons s rest ih =>
    intro n i current hn
    rw [List.length_cons] at hn
    rw [chunkAux, groupCap]
    have hiW : i % W < W := Nat.mod_lt _ hW
    by_cases hflush : (i + 1) % W = 0 ∨ i = n - 1
    · rw [if_pos hflush]
      have hcond : W - i % W ≤ 1 ∨ rest = [] := by
        rcases hflush with h1 | h2
        · left
          have := (succ_mod_eq_zero_iff W i hW).mp h1
          omega
        · right
          have : rest.length = 0 := by omega
          exact List.length_eq_zero.mp this
      rw [if_pos hcond]
      have hcur : current ++ [pyStrip s] ≠ [] := by simp
      rw [if_pos hcur]
      rcases Decidable.em (rest = []) with hr | hr
      · subst hr
        rfl
      · have h1 : (i + 1) % W = 0 := by
          rcases hflush with h1 | h2
          · exact h1
          · exfalso
            have : rest.length = 0 := by omega
            exact hr (List.length_eq_zero.mp this)
        rw [ih n (i + 1) [] (by omega)]
        rw [h1, Nat.sub_zero]
        simp
    · rw [if_neg hflush]
      push_neg at hflush
      obtain ⟨h1, h2⟩ := hflush
      have hrest : rest ≠ [] := by
        intro hr
        subst hr
        simp only [List.length_nil] at hn
        exact h2 (by omega)
      have hcond : ¬(W - i % W ≤ 1 ∨ rest = []) := by
        push_neg
        refine ⟨?_, hrest⟩
        have hne : i % W ≠ W - 1 := fun hh => h1 ((succ_mod_eq_zero_iff W i hW).mpr hh)
        omega
      rw [if_neg hcond]
      rw [ih n (i + 1) (current ++ [pyStrip s]) (by omega)]
      have hcap : W - (i + 1) % W = W - i % W - 1 := by
        rw [succ_mod_of_ne_zero W i hW h1]
        omega
      rw [hcap]

/-- The number of windows is the ceiling `(len + (W - c) + (W - 1)) / W`,
counting the `W - c` sentences already in the open window. -/
theorem groupCap_length (W : Nat) (hW : 1 ≤ W) :
    ∀ (rest : List (List Char)) (c : Nat) (current : List (List Char)),
      1 ≤ c → c ≤ W → rest ≠ [] →
      (groupCap W c current rest).length =
        (rest.length + (W - c) + (W - 1)) / W := by
  intro rest
  induction rest with
  | nil => intro c current _ _ h; exact absurd rfl h
  | cons s rest ih =>
    intro c current hc1 hcW _
    simp only [List.length_cons]
    rcases Decidable.em (rest = []) with hr | hr
    · subst hr
      rw [groupCap, if_pos (Or.inr rfl)]
      show 0 + 1 = (0 + 1 + (W - c) + (W - 1)) / W
      have hnum : 0 + 1 + (W - c) + (W - 1) = (W - c) + W := by omega
      rw [hnum, Nat.add_div_right _ (by omega), Nat.div_eq_of_lt (by omega)]
    · by_cases hc : c ≤ 1
      · have hceq : c = 1 := by omega
        subst hceq
        rw [groupCap, if_pos (Or.inl (le_refl 1))]
        rw [List.length_cons, ih W [] hW (le_refl W) hr, Nat.sub_self]
        have hnum : rest.length + 1 + (W - 1) + (W - 1) =
            (rest.length + 0 + (W - 1)) + W := by omega
        rw [hnum, Nat.add_div_right _ (by omega)]
      · have hcond : ¬(c ≤ 1 ∨ rest = []) := by
          push_neg
          exact ⟨by omega, hr⟩
        rw [groupCap, if_neg hcond]
        rw [ih (c - 1) (current ++ [pyStrip s]) (by omega) (by omega) hr]
        congr 1
        omega

/-- Every window except the last holds exactly `W` sentences; every
window holds between 1 and `W` sentences. -/
theorem groupCap_sizes (W : Nat) (hW : 1 ≤ W) :
    ∀ (rest : List (List Char)) (c : Nat) (current : List (List Char)),
      1 ≤ c → c ≤ W → current.length + c = W →
      (∀ g ∈ (groupCap W c current rest).dropLast, g.length = W) ∧
      (∀ g ∈ groupCap W c current rest, 1 ≤ g.length ∧ g.length ≤ W) := by
  intro rest
  induction rest with
  | nil =>
    intro c current _ _ _
    constructor
    · intro g hg
      simp [groupCap] at hg
    · intro g hg
      simp [groupCap] at hg
  | cons s rest ih =>
    intro c current hc1 hcW hinv
    have hcurlen : (current ++ [pyStrip s]).length = W - c + 1 := by
      rw [List.length_append, List.length_singleton]
      omega
    rcases Decidable.em (rest = []) with hr | hr
    · subst hr
      rw [groupCap, if_pos (Or.inr rfl)]
      constructor
      · intro g hg
        simp [groupCap] at hg
      · intro g hg
        simp only [groupCap, List.mem_singleton] at hg
        subst hg
        rw [hcurlen]
        constructor <;> omega
    · by_cases hc : c ≤ 1
      · have hceq : c = 1 := by omega
        subst hceq
        rw [groupCap, if_pos (Or.inl (le_refl 1))]
        have hne : groupCap W W [] rest ≠ [] := groupCap_ne_nil W rest W [] hr
        obtain ⟨ihd, ihm⟩ := ih W [] hW (le_refl W) (by simp)
        constructor
        · intro g hg
          rw [List.dropLast_cons_of_ne_nil hne] at hg
          rcases List.mem_cons.mp hg with rfl | hg
          · rw [hcurlen]
            omega
          · exact ihd g hg
        · intro g hg
          rcases List.mem_cons.mp hg with rfl | hg
          · rw [hcurlen]
            constructor <;> omega
          · exact ihm g hg
      · have hcond : ¬(c ≤ 1 ∨ rest = []) := by
          push_neg
          exact ⟨by omega, hr⟩
        rw [groupCap, if_neg hcond]
        exact ih (c - 1) (current ++ [pyStrip s]) (by omega) (by omega)
          (by rw [hcurlen]; omega)

/-- Concatenating the windows gives back the stripped sentences: no
sentence is lost or duplicated by the grouping. -/
theorem groupCap_join (W : Nat) :
    ∀ (rest : List (List Char)) (c : Nat) (current : List (List Char)),
      rest ≠ [] →
      (groupCap W c current rest).flatten = current ++ rest.map pyStrip := by
  intro rest
  induction rest with
  | nil => intro c current h; exact absurd rfl h
  | cons s rest ih =>
    intro c current _
    rcases Decidable.em (rest = []) with hr | hr
    · subst hr
      rw [groupCap, if_pos (Or.inr rfl)]
      simp [groupCap]
    · by_cases hc : c ≤ 1
      · rw [groupCap, if_pos (Or.inl hc)]
        rw [List.flatten_cons, ih W [] hr]
        simp
      · have hcond : ¬(c ≤ 1 ∨ rest = []) := by
          push_neg
          exact ⟨by omega, hr⟩
        rw [groupCap, if_neg hcond]
        rw [ih (c - 1) (current ++ [pyStrip s]) hr]
        simp

/-! ## Sentence-split facts -/

/-- The regex split always returns at least one piece (as `re.split`
does). -/
theorem splitSentencesAux_ne_nil :
    ∀ (l : List Char) (sep : Bool) (cur : List Char),
      splitSentencesAux sep cur l ≠ [] := by
  intro l
  induction l with
  | nil =>
    intro sep cur
    exact List.cons_ne_nil _ _
  | cons c rest ih =>
    intro sep cur
    rw [splitSentencesAux]
    by_cases h1 : (sep && pyIsSpace c) = true
    · rw [if_pos h1]
      exact ih true cur
    · rw [if_neg h1]
      by_cases h2 : (isSentenceEnd c && headIsSpace rest) = true
      · rw [if_pos h2]
        exact List.cons_ne_nil _ _
      · rw [if_neg h2]
        exact ih false (c :: cur)

/-- A text without sentence-ending punctuation is never split. -/
theorem splitSentencesAux_no_end :
    ∀ (l : List Char) (cur : List Char),
      (∀ c ∈ l, isSentenceEnd c = false) →
      splitSentencesAux false cur l = [cur.reverse ++ l] := by
  intro l
  induction l with
  | nil =>
    intro cur _
    simp [splitSentencesAux]
  | cons c rest ih =>
    intro cur h
    have hc : isSentenceEnd c = false := h c (List.mem_cons_self c rest)
    rw [splitSentencesAux, if_neg (by simp), if_neg (by simp [hc])]
    rw [ih (c :: cur) (fun d hd => h d (List.mem_cons_of_mem c hd))]
    simp

theorem space_not_sentenceEnd (c : Char) (h : pyIsSpace c = true) :
    isSentenceEnd c = false := by
  rw [pyIsSpace] at h
  simp only [Bool.or_eq_true, decide_eq_true_eq] at h
  rcases h with ((((h | h) | h) | h) | h) | h <;> subst h <;> decide

theorem pyStrip_all_space (s : List Char) (h : ∀ c ∈ s, pyIsSpace c = true) :
    pyStrip s = [] := by
  have h1 : s.dropWhile pyIsSpace = [] := List.dropWhile_eq_nil_iff.mpr h
  rw [pyStrip, h1]
  simp

/-! ## C2: chunk count and window sizes -/

/-- Claim C2, counterexample. For the empty text the boundary rule yields
one (empty) sentence, so the claimed count `ceil(N/W)` is 1, but
`_chunk_text` returns zero chunks (its empty-input guard fires before
splitting). -/
theorem C2_counterexample_empty_text :
    chunkTextL [] 3 = [] ∧ (splitSentences []).length = 1 ∧
    ((splitSentences []).length + 3 - 1) / 3 = 1 := by
  decide

/-- Claim C2, amended. For every *non-empty* text that the boundary rule
splits into `N` sentences and every window size `W ≥ 1`: the chunks are
exactly the space-joined windows of `chunkGroups`; there are
`ceil(N/W) = (N + W - 1)/W` of them; every window except possibly the
last holds exactly `W` sentences and every window holds between 1 and
`W`; concatenating the windows restores the stripped sentence sequence;
and the function is pure, so a second call returns the same output.  (On
the empty text the code returns zero chunks although the rule would
yield one empty sentence — see the counterexample.) -/
theorem C2_amended_chunk_shape (text : List Char) (W : Nat)
    (hW : 1 ≤ W) (htext : text ≠ []) :
    chunkTextL text W = (chunkGroups text W).map joinSpace ∧
    (chunkTextL text W).length = ((splitSentences text).length + (W - 1)) / W ∧
    (∀ g ∈ (chunkGroups text W).dropLast, g.length = W) ∧
    (∀ g ∈ chunkGroups text W, 1 ≤ g.length ∧ g.length ≤ W) ∧
    (chunkGroups text W).flatten = (splitSentences text).map pyStrip ∧
    chunkTextL text W = chunkTextL text W := by
  have hs : splitSentences text ≠ [] := splitSentencesAux_ne_nil text false []
  have h1 : chunkTextL text W = (chunkGroups text W).map joinSpace := by
    rw [chunkTextL, chunkGroups, if_neg htext, if_neg htext]
    rw [chunkAux_eq_groupCap W hW (splitSentences text)
      (splitSentences text).length 0 [] (by omega)]
    rw [Nat.zero_mod, Nat.sub_zero]
  refine ⟨h1, ?_, ?_, ?_, ?_, rfl⟩
  · rw [h1, List.length_map, chunkGroups, if_neg htext]
    rw [groupCap_length W hW (splitSentences text) W [] (by omega) (le_refl W) hs]
    rw [Nat.sub_self, Nat.add_zero]
  · intro g hg
    rw [chunkGroups, if_neg htext] at hg
    exact (groupCap_sizes W hW (splitSentences text) W [] (by omega) (le_refl W)
      (by simp)).1 g hg
  · intro g hg
    rw [chunkGroups, if_neg htext] at hg
    exact (groupCap_sizes W hW (splitSentences text) W [] (by omega) (le_refl W)
      (by simp)).2 g hg
  · rw [chunkGroups, if_neg htext]
    rw [groupCap_join W (splitSentences text) W [] hs]
    simp

/-- Witness for C2 on the four-sentence text
`"One. Two. Three. Four."` with the default window size 3. -/
theorem C2_amended_chunk_shape_witness :
    1 ≤ 3 ∧ "One. Two. Three. Four.".data ≠ [] ∧
    (chunkTextL "One. Two. Three. Four.".data 3 =
        (chunkGroups "One. Two. Three. Four.".data 3).map joinSpace ∧
      (chunkTextL "One. Two. Three. Four.".data 3).length =
        ((splitSentences "One. Two. Three. Four.".data).length + (3 - 1)) / 3 ∧
      (∀ g ∈ (chunkGroups "One. Two. Three. Four.".data 3).dropLast,
        g.length = 3) ∧
      (∀ g ∈ chunkGroups "One. Two. Three. Four.".data 3,
        1 ≤ g.length ∧ g.length ≤ 3) ∧
      (chunkGroups "One. Two. Three. Four.".data 3).flatten =
        (splitSentences "One. Two. Three. Four.".data).map pyStrip ∧
      chunkTextL "One. Two. Three. Four.".data 3 =
        chunkTextL "One. Two. Three. Four.".data 3) :=
  ⟨by decide, by decide,
   C2_amended_chunk_shape "One. Two. Three. Four.".data 3 (by decide) (by decide)⟩

/-! ## C3: chunks on empty and whitespace-only input -/

/-- Claim C3, counterexample. On the whitespace-only text `" "` the chunker
returns the one-element sequence containing the empty string — not the
empty sequence the claim demands — and that element is an empty string,
refuting the non-emptiness of returned chunks as well. -/
theorem C3_counterexample_whitespace :
    chunkTextL [' '] 3 = [[]] ∧ chunkTextL [' '] 3 ≠ [] ∧
    [] ∈ chunkTextL [' '] 3 := by
  decide

/-- Claim C3, amended. The chunker returns the empty sequence exactly for
the empty text: a whitespace-only non-empty text produces the
one-element sequence holding the empty string (its single sentence
strips to nothing), and in general every non-empty text produces at
least one chunk, but chunks are not guaranteed to be non-empty
strings. -/
theorem C3_amended_empty_whitespace (W : Nat) (text : List Char) (hW : 1 ≤ W) :
    chunkTextL [] W = [] ∧
    (text ≠ [] → (∀ c ∈ text, pyIsSpace c = true) → chunkTextL text W = [[]]) ∧
    (text ≠ [] → chunkTextL text W ≠ []) := by
  refine ⟨by rw [chunkTextL, if_pos rfl], ?_, ?_⟩
  · intro ht hsp
    have hnoend : ∀ c ∈ text, isSentenceEnd c = false :=
      fun c hc => space_not_sentenceEnd c (hsp c hc)
    have hsplit : splitSentences text = [text] := by
      rw [splitSentences, splitSentencesAux_no_end text [] hnoend]
      simp
    have hstrip : pyStrip text = [] := pyStrip_all_space text hsp
    rw [chunkTextL, if_neg ht, hsplit]
    simp [chunkAux, hstrip, joinSpace]
  · intro ht
    have hs : splitSentences text ≠ [] := splitSentencesAux_ne_nil text false []
    rw [chunkTextL, if_neg ht]
    rw [chunkAux_eq_groupCap W hW (splitSentences text)
      (splitSentences text).length 0 [] (by omega)]
    rw [Nat.zero_mod, Nat.sub_zero]
    simp only [ne_eq, List.map_eq_nil_iff]
    exact groupCap_ne_nil W (splitSentences text) W [] hs

/-- Witness for C3 at window size 3 and the whitespace-only text
`" "`. -/
theorem C3_amended_empty_whitespace_witness :
    1 ≤ 3 ∧
    (chunkTextL [] 3 = [] ∧
     ([' '] ≠ ([] : List Char) → (∀ c ∈ [' '], pyIsSpace c = true) →
       chunkTextL [' '] 3 = [[]]) ∧
     ([' '] ≠ ([] : List Char) → chunkTextL [' '] 3 ≠ [])) :=
  ⟨by decide, C3_amended_empty_whitespace 3 [' '] (by decide)⟩
